import Mathlib

/-!
# Verification of the AutoClockingServer attendance service

Shallow embedding of `src/NewTestServerApplication.py`: the check-in
ledger (sqlite table `checkins` with primary key `(hostname, date)`),
the checkout estimator, the report renderer, the retention garbage
collector, the schedulers' default-date logic, the email-scheduler
day-of-week validation, and the `/checkin` and `/status` routes.

Conventions of the embedding:
* SQL rows are `CheckinRow`; the table is a `List CheckinRow`.
* Python `dict`s are association lists built with `dictInsert`,
  which updates in place on an existing key and appends otherwise
  (exactly Python's insertion-order semantics).
* Timezone-aware instants are modelled as `Int` minutes; `timedelta`
  arithmetic is integer arithmetic on minutes.  Python's `//` and `%`
  are floor division, i.e. `Int.fdiv` / `Int.fmod`.
* `random.randint(-20, 40)` is modelled by passing the drawn jitter
  as an explicit argument (both bounds inclusive).
-/

set_option autoImplicit false

namespace AutoClocking

/-- A Python `dict` as an insertion-ordered association list:
assigning to an existing key updates it in place, a new key is
appended at the end. -/
def dictInsert {κ α : Type} [DecidableEq κ] : List (κ × α) → κ → α → List (κ × α)
  | [], k, v => [(k, v)]
  | (k', v') :: rest, k, v =>
    if k' = k then (k', v) :: rest else (k', v') :: dictInsert rest k v

/-- Python `dict.get(k)`: the value stored at key `k`, if any. -/
def dictLookup {κ α : Type} [DecidableEq κ] : List (κ × α) → κ → Option α
  | [], _ => none
  | (k', v) :: rest, k => if k' = k then some v else dictLookup rest k

/-- One row of the sqlite `checkins` table
(`hostname TEXT, checkin_time TEXT, date TEXT, checkout_time TEXT`,
primary key `(hostname, date)`). -/
structure CheckinRow where
  hostname : String
  checkin_time : String
  date : String
  checkout_time : Option String
deriving Repr, DecidableEq

/-- One value of the `AUTHORIZED_HOSTS` roster dict:
`{'name': ..., 'work_hours': ...}` loaded from the Excel sheet. -/
structure HostInfo where
  name : String
  work_hours : Int
deriving Repr, DecidableEq

/-- The `AUTHORIZED_HOSTS` roster: hostname → roster info. -/
abbrev Roster := List (String × HostInfo)

/-- Membership test `hostname in AUTHORIZED_HOSTS`. -/
def rosterContains (roster : Roster) (h : String) : Bool :=
  roster.any (fun p => p.1 == h)

/-- Lookup `AUTHORIZED_HOSTS.get(h)`. -/
def rosterLookup : Roster → String → Option HostInfo
  | [], _ => none
  | (k, info) :: rest, h => if k = h then some info else rosterLookup rest h

/-- Work hours `AUTHORIZED_HOSTS.get(h, {}).get('work_hours', 8)`. -/
def rosterWorkHours (roster : Roster) (h : String) : Int :=
  match rosterLookup roster h with
  | some info => info.work_hours
  | none => 8

/-- Display name `AUTHORIZED_HOSTS.get(h, {}).get('name', 'Unknown')`. -/
def hostDisplayName (roster : Roster) (h : String) : String :=
  match rosterLookup roster h with
  | some info => info.name
  | none => "Unknown"

/-- Is there a ledger row with primary key `(h, d)`?  Mirrors the
`INSERT OR IGNORE` conflict test on `PRIMARY KEY (hostname, date)`. -/
def hasKey (ledger : List CheckinRow) (h d : String) : Bool :=
  ledger.any (fun r => r.hostname == h && r.date == d)

/-- The `INSERT OR IGNORE INTO checkins ...` statement followed by the
`conn.total_changes > 0` test: inserts the row when the primary key
`(hostname, date)` is absent and reports whether a row was inserted. -/
def insertOrIgnore (ledger : List CheckinRow) (row : CheckinRow) :
    List CheckinRow × Bool :=
  if hasKey ledger row.hostname row.date then (ledger, false)
  else (ledger ++ [row], true)

/-- Lines 225–229 of `save_checkin`: the checkout estimator.
`total_minutes = norma * 60 + jitter`, split with Python's floor
division (`Int.fdiv` / `Int.fmod`) into hours and minutes, then added
to the check-in instant (`timedelta(hours=h, minutes=m)` is
`h * 60 + m` minutes). -/
def estimateCheckout (checkin_dt norma jitter : Int) : Int :=
  let total_minutes := norma * 60 + jitter
  let hours_to_add := Int.fdiv total_minutes 60
  let minutes_to_add := Int.fmod total_minutes 60
  checkin_dt + (hours_to_add * 60 + minutes_to_add)

/-- Model of `save_checkin(hostname, checkin_time)`.  `checkin_time` is the ISO
string stored in the row, `checkin_dt` the parsed instant in minutes,
`today` the Romania-timezone calendar date, `jitter` the value drawn by
`random.randint(-20, 40)`.  Returns the new ledger and the
`True`/`False` flag (`True` = row inserted, `False` = host already
checked in today). -/
def save_checkin (roster : Roster) (ledger : List CheckinRow)
    (hostname checkin_time : String) (checkin_dt : Int) (today : String)
    (jitter : Int) : List CheckinRow × Bool :=
  let norma := rosterWorkHours roster hostname
  let checkout_dt := estimateCheckout checkin_dt norma jitter
  insertOrIgnore ledger
    { hostname := hostname
      checkin_time := checkin_time
      date := today
      checkout_time := some (toString checkout_dt) }

/-- Outcome of the `/checkin` route. -/
inductive CheckinOutcome
  | badRequest
  | unauthorized
  | recorded
  | alreadyPresent
deriving Repr, DecidableEq

/-- HTTP status code attached to each `/checkin` outcome. -/
def outcomeHttp : CheckinOutcome → Nat
  | .badRequest => 400
  | .unauthorized => 403
  | .recorded => 200
  | .alreadyPresent => 208

/-- The `status` field of the `/checkin` JSON response. -/
def outcomeStatusField : CheckinOutcome → String
  | .badRequest => "error"
  | .unauthorized => "error"
  | .recorded => "success"
  | .alreadyPresent => "info"

/-- The `POST /checkin` route.  `hostname` is
`request.json.get('hostname')` (`none` = absent; the empty string is
falsy in Python, so both give 400).  Unauthorized hostnames get 403
before `save_checkin` is ever called; otherwise the
`True`/`False` result of `save_checkin` maps to 200/208. -/
def checkin_route (roster : Roster) (ledger : List CheckinRow)
    (hostname : Option String) (current_time : String) (checkin_dt : Int)
    (today : String) (jitter : Int) : List CheckinRow × CheckinOutcome :=
  match hostname with
  | none => (ledger, .badRequest)
  | some h =>
    if h = "" then (ledger, .badRequest)
    else if rosterContains roster h then
      match save_checkin roster ledger h current_time checkin_dt today jitter with
      | (l, true) => (l, .recorded)
      | (l, false) => (l, .alreadyPresent)
    else (ledger, .unauthorized)

/-- Codepoint-lexicographic order on character lists (sqlite's default
`ORDER BY` collation on `TEXT`, restricted to the ASCII ISO dates the
table stores). -/
def charListLt : List Char → List Char → Bool
  | [], [] => false
  | [], _ :: _ => true
  | _ :: _, [] => false
  | a :: as, b :: bs => if a < b then true else if b < a then false else charListLt as bs

/-- Comparison `a ≤ b` on the stored date strings. -/
def strLe (a b : String) : Bool := charListLt a.data b.data || a == b

/-- Insert into a list sorted ascending by `strLe`. -/
def orderedInsertAsc (d : String) : List String → List String
  | [] => [d]
  | e :: rest => if strLe d e then d :: e :: rest else e :: orderedInsertAsc d rest

/-- Insertion sort, ascending by `strLe`. -/
def sortAsc : List String → List String
  | [] => []
  | d :: rest => orderedInsertAsc d (sortAsc rest)

/-- The query `SELECT DISTINCT date FROM checkins ORDER BY date ASC`. -/
def distinctDatesAsc (ledger : List CheckinRow) : List String :=
  sortAsc (ledger.map (·.date)).dedup

/-- The query `SELECT COUNT(*) FROM checkins WHERE date = ?`. -/
def countForDate (ledger : List CheckinRow) (d : String) : Nat :=
  (ledger.filter (fun r => r.date == d)).length

/-- The date-selection loop of `garbage_collector` (lines 457–467):
walk the ascending dates accumulating each date's row count
(`rows_deleted`, the `acc` argument); while
`rows_deleted + date_rows <= rows_to_delete` keep selecting and
continue; otherwise select that one more date and break. -/
def selectDatesToDelete (countOf : String → Nat) (rows_to_delete : Nat) :
    List String → Nat → List String
  | [], _ => []
  | d :: rest, acc =>
    let date_rows := countOf d
    if acc + date_rows ≤ rows_to_delete then
      d :: selectDatesToDelete countOf rows_to_delete rest (acc + date_rows)
    else [d]

/-- The collector `garbage_collector` with the row budget as a parameter (the spec's
`collect(max_rows)`): count the rows; if within budget do nothing,
otherwise select whole ascending dates via `selectDatesToDelete` and
delete every row of each selected date.  Returns the resulting ledger
and `dates_to_delete`. -/
def garbage_collect (max_rows : Nat) (ledger : List CheckinRow) :
    List CheckinRow × List String :=
  let count := ledger.length
  if count ≤ max_rows then (ledger, [])
  else
    let rows_to_delete := count - max_rows
    let dates := distinctDatesAsc ledger
    let dates_to_delete := selectDatesToDelete (countForDate ledger) rows_to_delete dates 0
    (ledger.filter (fun r => !(dates_to_delete.contains r.date)), dates_to_delete)

/-- The constant `MAX_ROWS = 6000` (line 436). -/
def MAX_ROWS : Nat := 6000

/-- The source's `garbage_collector()` with its hard-coded budget. -/
def garbage_collector (ledger : List CheckinRow) : List CheckinRow × List String :=
  garbage_collect MAX_ROWS ledger

/-- Running total of the first `n` dates' row counts. -/
def accumRows (countOf : String → Nat) (dates : List String) (n : Nat) : Nat :=
  ((dates.take n).map countOf).sum

/-- Line 281: the renderer's artifact path
`f"{pdf_dir}/{report_date_str}.pdf"`. -/
def pdf_filename_for_date (output_dir report_date_str : String) : String :=
  output_dir ++ "/" ++ report_date_str ++ ".pdf"

/-- Line 477: the path the garbage collector tries to delete,
`os.path.join(output_dir, f"checkins_{date}.pdf")`. -/
def gc_pdf_path (output_dir date : String) : String :=
  output_dir ++ "/" ++ ("checkins_" ++ date ++ ".pdf")

/-- Model of `if os.path.exists(p): os.remove(p)` over a modelled directory
listing (removing an absent path is a logged no-op). -/
def remove_file (files : List String) (path : String) : List String :=
  files.filter (fun f => !(f == path))

/-- Lines 475–482: the per-selected-date artifact deletion performed by
`garbage_collector`. -/
def gc_delete_artifacts (output_dir : String) :
    List String → List String → List String
  | [], files => files
  | d :: rest, files =>
    gc_delete_artifacts output_dir rest (remove_file files (gc_pdf_path output_dir d))

/-- The times stored for one host: `(checkin_time, checkout_time)`. -/
abbrev Times := String × Option String

/-- Fold one fetched row into the `daily_checkins` nested dict
(lines 196–203): create the per-date dict when missing, then assign
`daily_checkins[date][hostname] = {...}`. -/
def insertCheckinRow (acc : List (String × List (String × Times)))
    (r : CheckinRow) : List (String × List (String × Times)) :=
  dictInsert acc r.date
    (dictInsert ((dictLookup acc r.date).getD []) r.hostname
      (r.checkin_time, r.checkout_time))

/-- Model of `load_daily_checkins(date)` applied to the rows the SELECT
returned: the optional `WHERE date = ?` filter, then the dict build. -/
def load_daily_checkins (rows : List CheckinRow) (dateFilter : Option String) :
    List (String × List (String × Times)) :=
  let selected : List CheckinRow :=
    match dateFilter with
    | some d => rows.filter (fun r => r.date == d)
    | none => rows
  selected.foldl insertCheckinRow []

/-- Variant of `load_daily_checkins` including its `except sqlite3.Error` handler
(lines 206–208): a failing SELECT yields the empty dict instead of
propagating the error. -/
def load_daily_checkins_db (queryResult : Except String (List CheckinRow))
    (dateFilter : Option String) : List (String × List (String × Times)) :=
  match queryResult with
  | Except.error _ => []
  | Except.ok rows => load_daily_checkins rows dateFilter

/-- The `GET /status` route (lines 575–579): always HTTP 200 together
with the `checkins` mapping for today. -/
def status_route (today : String)
    (queryResult : Except String (List CheckinRow)) :
    Nat × List (String × Times) :=
  let fresh_checkins := load_daily_checkins_db queryResult (some today)
  (200, (dictLookup fresh_checkins today).getD [])

/-- The inner per-date dict build: host → times, in row order, later
rows for the same host overwriting earlier ones. -/
def innerFold (rows : List CheckinRow) (m : List (String × Times)) :
    List (String × Times) :=
  rows.foldl (fun acc r => dictInsert acc r.hostname (r.checkin_time, r.checkout_time)) m

/-- The content of one rendered report, keeping what the claims are
about: the date, one present-row per `checked_in` entry
(hostname, display name, times) and one absent-row per absent host
(hostname, display name). -/
structure Report where
  date : String
  presentRows : List (String × String × Times)
  absentRows : List (String × String)
deriving Repr, DecidableEq

/-- Model of `generate_pdf_for_date(report_date)` (lines 264–382), at the level
of report content: `checked_in` is the per-date dict of
`load_daily_checkins`, `absent_hosts` is roster keys minus checked-in
keys, present rows are emitted by iterating `checked_in.items()` and
absent rows by iterating the absent hosts, names falling back to
`'Unknown'` for hosts without a roster entry. -/
def render (roster : Roster) (ledger : List CheckinRow) (date : String) : Report :=
  let checked_in := (dictLookup (load_daily_checkins ledger (some date)) date).getD []
  let absent_hosts := (roster.map (·.1)).filter
    (fun h => !(checked_in.any (fun p => p.1 == h)))
  { date := date
    presentRows := checked_in.map (fun p => (p.1, hostDisplayName roster p.1, p.2))
    absentRows := absent_hosts.map (fun h => (h, hostDisplayName roster h)) }

/-- Writing the rendered artifact to its per-date path: a path-keyed
store where writing an existing path replaces its content
(`canvas.Canvas(pdf_filename)` + `c.save()` overwrite the file). -/
def write_pdf_file (store : List (String × Report)) (path : String)
    (rep : Report) : List (String × Report) :=
  dictInsert store path rep

/-- Lines 266–267: `generate_pdf_for_date` resolves an omitted
`report_date` to `get_today_in_romania() - timedelta(days=1)`.
Calendar dates are modelled as day ordinals. -/
def generate_pdf_report_date (today : Int) (report_date : Option Int) : Int :=
  match report_date with
  | none => today - 1
  | some d => d

/-- Lines 388–389: `send_pdf_email` resolves an omitted `report_date`
the same way. -/
def send_pdf_email_report_date (today : Int) (report_date : Option Int) : Int :=
  match report_date with
  | none => today - 1
  | some d => d

/-- The `generate_pdf()` job — the daily report job calls
`generate_pdf_for_date()` with no argument. -/
def generate_pdf_job_date (today : Int) : Int :=
  generate_pdf_report_date today none

/-- The `send_pdf_email_task()` job — the scheduled email job calls
`send_pdf_email()` with no argument. -/
def send_pdf_email_task_date (today : Int) : Int :=
  send_pdf_email_report_date today none

/-- Decimal digit accumulator for `pyInt?`. -/
def parseDigitsAux : List Char → Nat → Option Nat
  | [], acc => some acc
  | c :: rest, acc =>
    if c.isDigit then parseDigitsAux rest (acc * 10 + (c.toNat - 48)) else none

/-- A nonempty run of decimal digits, as a number. -/
def parseDigits : List Char → Option Nat
  | [] => none
  | c :: rest => parseDigitsAux (c :: rest) 0

/-- Python `int(s)` on an already-stripped string: an optional sign
followed by at least one decimal digit; anything else raises
`ValueError`, modelled as `none`. -/
def pyInt? (s : String) : Option Int :=
  match s.data with
  | '-' :: rest => (parseDigits rest).map (fun n => -(n : Int))
  | '+' :: rest => (parseDigits rest).map (fun n => (n : Int))
  | cs => (parseDigits cs).map (fun n => (n : Int))

/-- Python `str.strip()`: drop leading and trailing whitespace. -/
def pyStrip (s : String) : String :=
  ⟨((s.data.dropWhile Char.isWhitespace).reverse.dropWhile Char.isWhitespace).reverse⟩

/-- One entry of `email_scheduler.day_of_week`: `int(day.strip())`
(`pyInt? (pyStrip day)`, `none` standing for the `ValueError` that
`int()` raises on a non-integer), then the range check of lines 63–64.
Either failure is logged and re-raised by lines 65–67, so config
loading aborts. -/
def validate_day (day : String) : Except String Unit :=
  match pyInt? (pyStrip day) with
  | none => Except.error "invalid literal for int()"
  | some day_num =>
    if 0 ≤ day_num ∧ day_num ≤ 6 then Except.ok ()
    else Except.error "Invalid day_of_week value"

/-- The validation loop of `load_config` (lines 60–67) over the
configured day-of-week entries; the first failure raises. -/
def validate_email_days : List String → Except String Unit
  | [] => Except.ok ()
  | day :: rest =>
    match validate_day day with
    | Except.ok _ => validate_email_days rest
    | Except.error e => Except.error e

/-- Roster fixture for concrete witnesses. -/
def wRoster : Roster := [("host1", ⟨"Ana", 8⟩), ("host2", ⟨"Bob", 8⟩)]

/-- One-row ledger fixture. -/
def wLedger1 : List CheckinRow :=
  [{ hostname := "host1", checkin_time := "t1", date := "2024-01-10",
     checkout_time := some "t2" }]

/-- Ledger fixture: two dates with five rows each. -/
def cexLedger : List CheckinRow :=
  [{ hostname := "h1", checkin_time := "t", date := "2024-01-01", checkout_time := none },
   { hostname := "h2", checkin_time := "t", date := "2024-01-01", checkout_time := none },
   { hostname := "h3", checkin_time := "t", date := "2024-01-01", checkout_time := none },
   { hostname := "h4", checkin_time := "t", date := "2024-01-01", checkout_time := none },
   { hostname := "h5", checkin_time := "t", date := "2024-01-01", checkout_time := none },
   { hostname := "h1", checkin_time := "t", date := "2024-01-02", checkout_time := none },
   { hostname := "h2", checkin_time := "t", date := "2024-01-02", checkout_time := none },
   { hostname := "h3", checkin_time := "t", date := "2024-01-02", checkout_time := none },
   { hostname := "h4", checkin_time := "t", date := "2024-01-02", checkout_time := none },
   { hostname := "h5", checkin_time := "t", date := "2024-01-02", checkout_time := none }]

/-- A second insert with an already-present primary key finds the key. -/
theorem hasKey_append_self (ledger : List CheckinRow) (row : CheckinRow) :
    hasKey (ledger ++ [row]) row.hostname row.date = true := by
  simp [hasKey]

theorem filter_key_eq_nil {ledger : List CheckinRow} {h d : String}
    (hfresh : hasKey ledger h d = false) :
    ledger.filter (fun r => r.hostname == h && r.date == d) = [] := by
  rw [List.filter_eq_nil_iff]
  intro a ha
  have := List.any_eq_false.mp hfresh a ha
  simpa using this

/-- C4: For every check-in instant and every expected_hours ≥ 1 and any
jitter drawn by `random.randint(-20, 40)`, the derived checkout equals
the check-in instant plus `m` minutes with
`expected_hours*60 - 20 ≤ m ≤ expected_hours*60 + 40`; the
floor-divide/remainder normalization of total minutes into hours and
minutes never changes the total offset and never yields a negative
remainder. -/
theorem estimateCheckout_window (checkin_dt norma jitter : Int)
    (hn : 1 ≤ norma) (hj1 : -20 ≤ jitter) (hj2 : jitter ≤ 40) :
    (∃ m : Int, estimateCheckout checkin_dt norma jitter = checkin_dt + m ∧
        norma * 60 - 20 ≤ m ∧ m ≤ norma * 60 + 40) ∧
    0 ≤ Int.fmod (norma * 60 + jitter) 60 ∧
    Int.fdiv (norma * 60 + jitter) 60 * 60 + Int.fmod (norma * 60 + jitter) 60 =
      norma * 60 + jitter := by
  have key : Int.fdiv (norma * 60 + jitter) 60 * 60 +
      Int.fmod (norma * 60 + jitter) 60 = norma * 60 + jitter := by
    have h60 := Int.fdiv_add_fmod (norma * 60 + jitter) 60
    linarith
  refine ⟨⟨norma * 60 + jitter, ?_, by omega, by omega⟩,
    Int.fmod_nonneg' _ (by decide), key⟩
  simp only [estimateCheckout]
  rw [key]

/-- Witness for `estimateCheckout_window` at checkin 0, norma 8, jitter 40. -/
theorem estimateCheckout_window_witness :
    (∃ m : Int, estimateCheckout 0 8 40 = 0 + m ∧
        8 * 60 - 20 ≤ m ∧ m ≤ 8 * 60 + 40) ∧
    0 ≤ Int.fmod (8 * 60 + 40) 60 ∧
    Int.fdiv (8 * 60 + 40) 60 * 60 + Int.fmod (8 * 60 + 40) 60 = 8 * 60 + 40 :=
  estimateCheckout_window 0 8 40 (by decide) (by decide) (by decide)

/-- C1: For an authorized hostname `h` with no prior ledger row for
`(h, today)`, calling `POST /checkin` twice on the same day leaves
exactly one ledger row for `(h, today)`; the first call returns the
`recorded` outcome (HTTP 200) and the second the distinct
`alreadyPresent` outcome (HTTP 208, status field "info") — never an
error and never a duplicate row. -/
theorem checkin_idempotent_per_day
    (roster : Roster) (ledger : List CheckinRow) (h ct1 ct2 : String)
    (cd1 cd2 : Int) (today : String) (j1 j2 : Int)
    (hne : h ≠ "")
    (hauth : rosterContains roster h = true)
    (hfresh : hasKey ledger h today = false) :
    let r1 := checkin_route roster ledger (some h) ct1 cd1 today j1
    let r2 := checkin_route roster r1.1 (some h) ct2 cd2 today j2
    r1.2 = CheckinOutcome.recorded ∧ outcomeHttp r1.2 = 200 ∧
    r2.2 = CheckinOutcome.alreadyPresent ∧ outcomeHttp r2.2 = 208 ∧
    outcomeStatusField r2.2 = "info" ∧
    (r2.1.filter (fun r => r.hostname == h && r.date == today)).length = 1 := by
  intro r1 r2
  have hrow1 : r1 = (ledger ++
      [{ hostname := h, checkin_time := ct1, date := today,
         checkout_time :=
           some (toString (estimateCheckout cd1 (rosterWorkHours roster h) j1)) }],
      CheckinOutcome.recorded) := by
    simp only [r1, checkin_route, save_checkin, insertOrIgnore, hfresh,
      if_neg hne, hauth, if_true, Bool.false_eq_true, if_false]
  have hkey2 : hasKey r1.1 h today = true := by
    rw [hrow1]
    exact hasKey_append_self ledger _
  have hrow2 : r2 = (r1.1, CheckinOutcome.alreadyPresent) := by
    simp only [r2, checkin_route, save_checkin, insertOrIgnore, hkey2,
      if_neg hne, hauth, if_true]
  refine ⟨by rw [hrow1], by rw [hrow1]; rfl, by rw [hrow2], by rw [hrow2]; rfl,
    by rw [hrow2]; rfl, ?_⟩
  rw [hrow2, hrow1]
  simp [List.filter_append, filter_key_eq_nil hfresh]

/-- Witness for `checkin_idempotent_per_day`: host1, empty ledger. -/
theorem checkin_idempotent_per_day_witness :
    let r1 := checkin_route wRoster [] (some "host1") "t1" 480 "2024-01-10" 0
    let r2 := checkin_route wRoster r1.1 (some "host1") "t2" 490 "2024-01-10" 5
    r1.2 = CheckinOutcome.recorded ∧ outcomeHttp r1.2 = 200 ∧
    r2.2 = CheckinOutcome.alreadyPresent ∧ outcomeHttp r2.2 = 208 ∧
    outcomeStatusField r2.2 = "info" ∧
    (r2.1.filter (fun r => r.hostname == "host1" && r.date == "2024-01-10")).length = 1 :=
  checkin_idempotent_per_day wRoster [] "host1" "t1" "t2" 480 490 "2024-01-10" 0 5
    (by decide) (by decide) (by decide)

/-- C6: A nonempty hostname absent from `AUTHORIZED_HOSTS` is rejected
with the unauthorized outcome (HTTP 403) and the ledger is returned
unchanged — no row is created. -/
theorem checkin_unauthorized_rejected
    (roster : Roster) (ledger : List CheckinRow) (h ct : String)
    (cd : Int) (today : String) (j : Int)
    (hne : h ≠ "")
    (hunauth : rosterContains roster h = false) :
    checkin_route roster ledger (some h) ct cd today j =
      (ledger, CheckinOutcome.unauthorized) ∧
    outcomeHttp CheckinOutcome.unauthorized = 403 := by
  constructor
  · simp [checkin_route, hne, hunauth]
  · rfl

/-- Witness for `checkin_unauthorized_rejected`: an unknown host. -/
theorem checkin_unauthorized_rejected_witness :
    checkin_route wRoster [] (some "rogue") "t1" 480 "2024-01-10" 0 =
      ([], CheckinOutcome.unauthorized) ∧
    outcomeHttp CheckinOutcome.unauthorized = 403 :=
  checkin_unauthorized_rejected wRoster [] "rogue" "t1" 480 "2024-01-10" 0
    (by decide) (by decide)

/-- Unfolding `accumRows` one date at a time. -/
theorem accumRows_cons (countOf : String → Nat) (d : String)
    (rest : List String) (n : Nat) :
    accumRows countOf (d :: rest) (n + 1) = countOf d + accumRows countOf rest n := by
  simp [accumRows]

/-- The selection loop selects exactly the dates up to and including the
first one at which the running total strictly exceeds the target. -/
theorem selectDatesToDelete_take (countOf : String → Nat) (excess : Nat)
    (dates : List String) :
    ∀ (acc j : Nat), j < dates.length →
      excess < acc + accumRows countOf dates (j + 1) →
      (∀ i, i < j → acc + accumRows countOf dates (i + 1) ≤ excess) →
      selectDatesToDelete countOf excess dates acc = dates.take (j + 1) := by
  induction dates with
  | nil =>
    intro acc j hj _ _
    exact absurd hj (by simp)
  | cons d rest ih =>
    intro acc j hj hexc hbef
    have hone : accumRows countOf (d :: rest) 1 = countOf d := by
      simp [accumRows]
    cases j with
    | zero =>
      rw [hone] at hexc
      simp only [selectDatesToDelete]
      rw [if_neg (by omega)]
      simp
    | succ k =>
      have h0 := hbef 0 (Nat.succ_pos k)
      rw [hone] at h0
      have hexc' : excess < (acc + countOf d) + accumRows countOf rest (k + 1) := by
        rw [accumRows_cons] at hexc
        omega
      simp only [selectDatesToDelete]
      rw [if_pos (by omega), List.take_succ_cons]
      congr 1
      refine ih (acc + countOf d) k (by simpa using hj) hexc' ?_
      intro i hi
      have := hbef (i + 1) (by omega)
      rw [accumRows_cons] at this
      omega

/-- The selection loop only ever selects a prefix of the date list. -/
theorem selectDatesToDelete_leading (countOf : String → Nat) (excess : Nat) :
    ∀ (dates : List String) (acc : Nat),
      selectDatesToDelete countOf excess dates acc <+: dates := by
  intro dates
  induction dates with
  | nil =>
    intro acc
    simp [selectDatesToDelete]
  | cons d rest ih =>
    intro acc
    simp only [selectDatesToDelete]
    by_cases hc : acc + countOf d ≤ excess
    · rw [if_pos hc]
      obtain ⟨t, ht⟩ := ih (acc + countOf d)
      exact ⟨t, by simp [ht]⟩
    · rw [if_neg hc]
      exact ⟨rest, rfl⟩

/-- C2 (amended): when the total row count exceeds the row budget, the
walk over ascending distinct dates selects every date up to and
including the first date at which the accumulated row count STRICTLY
EXCEEDS `excess = count - max_rows`, and stops there; a date at which
the running total merely equals the excess does not stop the walk. -/
theorem gc_stops_at_first_strict_exceed (max_rows : Nat)
    (ledger : List CheckinRow) (j : Nat)
    (hover : max_rows < ledger.length)
    (hj : j < (distinctDatesAsc ledger).length)
    (hexc : ledger.length - max_rows <
      accumRows (countForDate ledger) (distinctDatesAsc ledger) (j + 1))
    (hbef : ∀ i, i < j →
      accumRows (countForDate ledger) (distinctDatesAsc ledger) (i + 1) ≤
        ledger.length - max_rows) :
    (garbage_collect max_rows ledger).2 = (distinctDatesAsc ledger).take (j + 1) := by
  simp only [garbage_collect]
  rw [if_neg (by omega)]
  exact selectDatesToDelete_take _ _ _ 0 j hj (by simpa using hexc)
    (fun i hi => by simpa using hbef i hi)

/-- Witness for `gc_stops_at_first_strict_exceed`: budget 5 on the
10-row fixture; the running total first strictly exceeds the excess 5
at the second date, so both dates are selected. -/
theorem gc_stops_at_first_strict_exceed_witness :
    (garbage_collect 5 cexLedger).2 = (distinctDatesAsc cexLedger).take 2 :=
  gc_stops_at_first_strict_exceed 5 cexLedger 1 (by decide) (by decide)
    (by decide) (by decide)

/-- C2 counterexample: with budget 5, `excess = 5`, and the first
date's accumulated row count already meeting the excess (5 ≥ 5), the
collector does NOT stop at that first meeting-or-exceeding date: it
also selects the following date. -/
theorem gc_counterexample_meets_but_continues :
    cexLedger.length - 5 ≤ countForDate cexLedger "2024-01-01" ∧
    countForDate cexLedger "2024-01-01" =
      accumRows (countForDate cexLedger) (distinctDatesAsc cexLedger) 1 ∧
    (garbage_collect 5 cexLedger).2 = ["2024-01-01", "2024-01-02"] := by decide

/-- C7: the retention collector is a no-op when the row count is within
the budget (the ledger is unchanged and no date is selected); the
resulting ledger keeps exactly the rows whose date was not selected
(whole dates are the deletion granularity); and the selected dates are
a prefix of the ascending-sorted distinct dates of the ledger. -/
theorem gc_frame (max_rows : Nat) (ledger : List CheckinRow) :
    (ledger.length ≤ max_rows → garbage_collect max_rows ledger = (ledger, [])) ∧
    (∀ r, r ∈ (garbage_collect max_rows ledger).1 ↔
      (r ∈ ledger ∧ r.date ∉ (garbage_collect max_rows ledger).2)) ∧
    (garbage_collect max_rows ledger).2 <+: distinctDatesAsc ledger := by
  refine ⟨fun hle => by simp [garbage_collect, hle], ?_, ?_⟩
  · intro r
    by_cases hle : ledger.length ≤ max_rows
    · simp [garbage_collect, hle]
    · simp only [garbage_collect, if_neg hle]
      simp [List.mem_filter]
  · by_cases hle : ledger.length ≤ max_rows
    · simp [garbage_collect, hle]
    · simp only [garbage_collect, if_neg hle]
      exact selectDatesToDelete_leading _ _ _ 0

/-- Witness for `gc_frame`: a one-row ledger within budget is untouched. -/
theorem gc_frame_witness :
    garbage_collect 5
      [{ hostname := "h1", checkin_time := "t", date := "2024-01-01",
         checkout_time := none }] =
      ([{ hostname := "h1", checkin_time := "t", date := "2024-01-01",
          checkout_time := none }], []) :=
  (gc_frame 5 _).1 (by decide)

/-- C3 (code bug evidence): the collector's deletion path
`checkins_<date>.pdf` is not the renderer's artifact path
`<date>.pdf`, so a collection pass over a pruned date leaves the
rendered artifact in place. -/
theorem gc_misses_rendered_artifact :
    gc_pdf_path "pdfs" "2024-01-01" ≠ pdf_filename_for_date "pdfs" "2024-01-01" ∧
    gc_delete_artifacts "pdfs" ["2024-01-01"]
        [pdf_filename_for_date "pdfs" "2024-01-01"] =
      [pdf_filename_for_date "pdfs" "2024-01-01"] := by decide

/-- C8: with no date supplied, both the report renderer and the email
sender resolve the report date to the previous calendar day — never
today — and the scheduled jobs (which pass no date) therefore always
target yesterday. -/
theorem scheduled_jobs_use_yesterday (today : Int) :
    generate_pdf_report_date today none = today - 1 ∧
    send_pdf_email_report_date today none = today - 1 ∧
    generate_pdf_job_date today = today - 1 ∧
    send_pdf_email_task_date today = today - 1 ∧
    generate_pdf_job_date today ≠ today ∧
    send_pdf_email_task_date today ≠ today := by
  refine ⟨rfl, rfl, rfl, rfl, ?_, ?_⟩ <;>
    simp [generate_pdf_job_date, generate_pdf_report_date,
      send_pdf_email_task_date, send_pdf_email_report_date]

/-- A single day entry validates exactly when it parses as an integer
in `[0, 6]`. -/
theorem validate_day_ok (day : String) :
    validate_day day = Except.ok () ↔
      ∃ n : Int, pyInt? (pyStrip day) = some n ∧ 0 ≤ n ∧ n ≤ 6 := by
  unfold validate_day
  cases ht : pyInt? (pyStrip day) with
  | none =>
    constructor
    · intro h
      exact Except.noConfusion h
    · rintro ⟨n, hn, -, -⟩
      exact Option.noConfusion hn
  | some n =>
    dsimp only
    by_cases hr : 0 ≤ n ∧ n ≤ 6
    · rw [if_pos hr]
      exact ⟨fun _ => ⟨n, rfl, hr.1, hr.2⟩, fun _ => rfl⟩
    · rw [if_neg hr]
      constructor
      · intro h
        exact Except.noConfusion h
      · rintro ⟨m, hm, h1, h2⟩
        cases hm
        exact absurd ⟨h1, h2⟩ hr

/-- C9: the email-scheduler day-of-week validation succeeds exactly
when every configured entry parses as an integer between 0 and 6
inclusive; any out-of-range or non-integer entry makes `load_config`
raise, so the process does not start serving. -/
theorem email_days_validation (days : List String) :
    validate_email_days days = Except.ok () ↔
      ∀ day ∈ days, ∃ n : Int, pyInt? (pyStrip day) = some n ∧ 0 ≤ n ∧ n ≤ 6 := by
  induction days with
  | nil => simp [validate_email_days]
  | cons day rest ih =>
    simp only [validate_email_days, List.mem_cons]
    cases hv : validate_day day with
    | ok u =>
      cases u
      have hd := (validate_day_ok day).mp hv
      constructor
      · intro hrest x hx
        rcases hx with rfl | hx
        · exact hd
        · exact ih.mp hrest x hx
      · intro hall
        exact ih.mpr (fun x hx => hall x (Or.inr hx))
    | error e =>
      have hd : ¬ ∃ n : Int, pyInt? (pyStrip day) = some n ∧ 0 ≤ n ∧ n ≤ 6 := by
        intro hc
        have hok := (validate_day_ok day).mpr hc
        rw [hv] at hok
        exact Except.noConfusion hok
      constructor
      · intro h
        exact Except.noConfusion h
      · intro hall
        exact absurd (hall day (Or.inl rfl)) hd

/-- C10: a database error in the ledger query makes
`load_daily_checkins` return an empty mapping instead of raising, and
`GET /status` answers HTTP 200 with an empty `checkins` mapping; for
any query outcome whatsoever the status route answers 200. -/
theorem status_swallows_store_error (today e : String)
    (queryResult : Except String (List CheckinRow)) :
    load_daily_checkins_db (Except.error e) (some today) = [] ∧
    status_route today (Except.error e) = (200, []) ∧
    (status_route today queryResult).1 = 200 :=
  ⟨rfl, rfl, rfl⟩

/-- Witness for `email_days_validation`: "2,3" split into entries
validates, via the right-to-left direction. -/
theorem email_days_validation_witness :
    validate_email_days ["2", "3"] = Except.ok () :=
  (email_days_validation ["2", "3"]).mpr (by
    intro day hday
    rcases List.mem_cons.mp hday with rfl | hday
    · exact ⟨2, by decide, by decide, by decide⟩
    rcases List.mem_cons.mp hday with rfl | hday
    · exact ⟨3, by decide, by decide, by decide⟩
    cases hday)

theorem dictLookup_insert_self {κ α : Type} [DecidableEq κ]
    (m : List (κ × α)) (k : κ) (v : α) :
    dictLookup (dictInsert m k v) k = some v := by
  induction m with
  | nil => simp [dictInsert, dictLookup]
  | cons p rest ih =>
    obtain ⟨k', v'⟩ := p
    by_cases hk : k' = k
    · simp [dictInsert, dictLookup, hk]
    · simp [dictInsert, dictLookup, hk, ih]

theorem mem_keys_dictInsert {κ α : Type} [DecidableEq κ]
    (m : List (κ × α)) (k h : κ) (v : α) :
    h ∈ (dictInsert m k v).map (·.1) ↔ (h = k ∨ h ∈ m.map (·.1)) := by
  induction m with
  | nil => simp [dictInsert]
  | cons p rest ih =>
    obtain ⟨k', v'⟩ := p
    by_cases hk : k' = k
    · subst hk
      simp [dictInsert]
    · simp only [dictInsert, if_neg hk, List.map_cons, List.mem_cons, ih]
      tauto

theorem nodup_keys_dictInsert {κ α : Type} [DecidableEq κ]
    (m : List (κ × α)) (k : κ) (v : α)
    (hm : (m.map (·.1)).Nodup) :
    ((dictInsert m k v).map (·.1)).Nodup := by
  induction m with
  | nil => simp [dictInsert]
  | cons p rest ih =>
    obtain ⟨k', v'⟩ := p
    by_cases hk : k' = k
    · subst hk
      simpa [dictInsert] using hm
    · simp only [List.map_cons, List.nodup_cons] at hm
      simp only [dictInsert, if_neg hk, List.map_cons, List.nodup_cons]
      refine ⟨?_, ih hm.2⟩
      rw [mem_keys_dictInsert]
      rintro (rfl | hmem)
      · exact hk rfl
      · exact hm.1 hmem

theorem innerFold_nil (m : List (String × Times)) : innerFold [] m = m := rfl

theorem innerFold_cons (r : CheckinRow) (rows : List CheckinRow)
    (m : List (String × Times)) :
    innerFold (r :: rows) m =
      innerFold rows (dictInsert m r.hostname (r.checkin_time, r.checkout_time)) := rfl

theorem mem_keys_innerFold (rows : List CheckinRow) :
    ∀ (m : List (String × Times)) (h : String),
      h ∈ (innerFold rows m).map (·.1) ↔
        (h ∈ m.map (·.1) ∨ ∃ r ∈ rows, r.hostname = h) := by
  induction rows with
  | nil =>
    intro m h
    simp [innerFold]
  | cons r rows ih =>
    intro m h
    rw [innerFold_cons, ih, mem_keys_dictInsert]
    constructor
    · rintro ((rfl | hm) | hr)
      · exact Or.inr ⟨r, List.mem_cons_self r rows, rfl⟩
      · exact Or.inl hm
      · obtain ⟨x, hx, hxh⟩ := hr
        exact Or.inr ⟨x, List.mem_cons_of_mem r hx, hxh⟩
    · rintro (hm | ⟨x, hx, hxh⟩)
      · exact Or.inl (Or.inr hm)
      · rcases List.mem_cons.mp hx with rfl | hx
        · exact Or.inl (Or.inl hxh.symm)
        · exact Or.inr ⟨x, hx, hxh⟩

theorem nodup_keys_innerFold (rows : List CheckinRow) :
    ∀ (m : List (String × Times)), (m.map (·.1)).Nodup →
      ((innerFold rows m).map (·.1)).Nodup := by
  induction rows with
  | nil =>
    intro m hm
    exact hm
  | cons r rows ih =>
    intro m hm
    rw [innerFold_cons]
    exact ih _ (nodup_keys_dictInsert _ _ _ hm)

/-- On rows that all carry date `d`, the nested dict build of
`load_daily_checkins` read back at `d` is the flat per-host dict. -/
theorem outer_lookup_foldl (d : String) (rows : List CheckinRow) :
    ∀ (acc : List (String × List (String × Times))),
      (∀ r ∈ rows, r.date = d) →
      (dictLookup (rows.foldl insertCheckinRow acc) d).getD [] =
        innerFold rows ((dictLookup acc d).getD []) := by
  induction rows with
  | nil =>
    intro acc _
    rfl
  | cons r rows ih =>
    intro acc hall
    have hd : r.date = d := hall r (List.mem_cons_self r rows)
    rw [List.foldl_cons, innerFold_cons,
      ih _ (fun x hx => hall x (List.mem_cons_of_mem r hx))]
    congr 1
    simp only [insertCheckinRow, hd]
    rw [dictLookup_insert_self]
    rfl

/-- The `checked_in` dict that `render` reads for date `d`. -/
theorem render_checked_in (ledger : List CheckinRow) (d : String) :
    (dictLookup (load_daily_checkins ledger (some d)) d).getD [] =
      innerFold (ledger.filter (fun r => r.date == d)) [] := by
  have hall : ∀ r ∈ ledger.filter (fun r => r.date == d), r.date = d := by
    intro r hr
    have := List.of_mem_filter hr
    simpa using this
  show (dictLookup ((ledger.filter (fun r => r.date == d)).foldl insertCheckinRow []) d).getD [] =
    innerFold (ledger.filter (fun r => r.date == d)) []
  rw [outer_lookup_foldl d _ [] hall]
  rfl

theorem mem_keys_checked_in (ledger : List CheckinRow) (d h : String) :
    h ∈ (innerFold (ledger.filter (fun r => r.date == d)) []).map (·.1) ↔
      ∃ r ∈ ledger, r.hostname = h ∧ r.date = d := by
  rw [mem_keys_innerFold]
  simp only [List.map_nil, List.not_mem_nil, false_or, List.mem_filter, beq_iff_eq]
  constructor
  · rintro ⟨r, ⟨hr, hrd⟩, hrh⟩
    exact ⟨r, hr, hrh, hrd⟩
  · rintro ⟨r, hr, hrh, hrd⟩
    exact ⟨r, ⟨hr, hrd⟩, hrh⟩

/-- C5: for every date `d`, `render` partitions the roster — the
absent hosts are exactly the roster host_ids minus the host_ids
checked in on `d`, with exactly one present-row per checked-in host
and exactly one absent-row per absent roster host — and re-running
`render(d)` writes its artifact over whatever was previously stored
at that date's path. -/
theorem render_partitions_roster (roster : Roster) (ledger : List CheckinRow)
    (d : String) (hroster : (roster.map (·.1)).Nodup) :
    (∀ h, (h ∈ (render roster ledger d).absentRows.map (·.1)) ↔
      (h ∈ roster.map (·.1) ∧ ¬ ∃ r ∈ ledger, r.hostname = h ∧ r.date = d)) ∧
    (∀ h, (∃ r ∈ ledger, r.hostname = h ∧ r.date = d) →
      ((render roster ledger d).presentRows.map (·.1)).count h = 1) ∧
    (∀ h, h ∈ roster.map (·.1) → (¬ ∃ r ∈ ledger, r.hostname = h ∧ r.date = d) →
      ((render roster ledger d).absentRows.map (·.1)).count h = 1) ∧
    (∀ (store : List (String × Report)) (output_dir : String),
      dictLookup (write_pdf_file store (pdf_filename_for_date output_dir d)
          (render roster ledger d)) (pdf_filename_for_date output_dir d) =
        some (render roster ledger d)) := by
  have habsent : (render roster ledger d).absentRows.map (·.1) =
      (roster.map (·.1)).filter
        (fun h => !((innerFold (ledger.filter (fun r => r.date == d)) []).any
          (fun p => p.1 == h))) := by
    simp [render, render_checked_in, List.map_map, Function.comp_def]
  have hpresent : (render roster ledger d).presentRows.map (·.1) =
      (innerFold (ledger.filter (fun r => r.date == d)) []).map (·.1) := by
    simp [render, render_checked_in, List.map_map, Function.comp_def]
  have hkeymem : ∀ h, ((innerFold (ledger.filter (fun r => r.date == d)) []).any
      (fun p => p.1 == h)) = true ↔
      ∃ r ∈ ledger, r.hostname = h ∧ r.date = d := by
    intro h
    rw [← mem_keys_checked_in]
    simp [List.any_eq_true, List.mem_map]
  have hmemabs : ∀ h, (h ∈ (render roster ledger d).absentRows.map (·.1)) ↔
      (h ∈ roster.map (·.1) ∧ ¬ ∃ r ∈ ledger, r.hostname = h ∧ r.date = d) := by
    intro h
    rw [habsent, List.mem_filter]
    constructor
    · rintro ⟨hm, hf⟩
      refine ⟨hm, ?_⟩
      rw [← hkeymem h]
      intro htrue
      rw [htrue] at hf
      exact Bool.noConfusion hf
    · rintro ⟨hm, hf⟩
      refine ⟨hm, ?_⟩
      cases hb : (innerFold (ledger.filter (fun r => r.date == d)) []).any
          (fun p => p.1 == h) with
      | false => rfl
      | true => exact absurd ((hkeymem h).mp hb) hf
  refine ⟨hmemabs, ?_, ?_, ?_⟩
  · intro h hex
    rw [hpresent]
    refine List.count_eq_one_of_mem ?_ ?_
    · exact nodup_keys_innerFold _ [] (by simp)
    · rw [mem_keys_checked_in]
      exact hex
  · intro h hm hnot
    rw [habsent]
    refine List.count_eq_one_of_mem ?_ ?_
    · exact List.Nodup.filter _ hroster
    · rw [← habsent]
      exact (hmemabs h).mpr ⟨hm, hnot⟩
  · intro store output_dir
    exact dictLookup_insert_self _ _ _

/-- Witness for `render_partitions_roster`: the one-row fixture ledger
on the two-host roster; the overwrite conjunct at the empty store. -/
theorem render_partitions_roster_witness :
    dictLookup (write_pdf_file [] (pdf_filename_for_date "pdfs" "2024-01-10")
        (render wRoster wLedger1 "2024-01-10")) (pdf_filename_for_date "pdfs" "2024-01-10") =
      some (render wRoster wLedger1 "2024-01-10") :=
  (render_partitions_roster wRoster wLedger1 "2024-01-10" (by decide)).2.2.2 [] "pdfs"

end AutoClocking
